import Mathlib

/-!
Verification of the mcp-smalledit server's tool handlers.

The handlers (sed_edit, quick_replace, line_edit, diff_preview,
restore_backup, read_file, search_in_file, show_around_line) are shallowly
embedded below.  The filesystem is a partial map from paths to textual file
contents; file contents are also viewed as lists of lines (the handlers split
on the newline character).  External processes the handlers spawn (sed, perl,
diff, cp, rm) are modelled at the exact points the handlers depend on them:
the shell's single-quote processing, the parsing of the constructed
`s/pat/rep/flags` command, sed's basic-regular-expression pattern language
restricted to patterns that denote a literal string (the only ones the
escaping in quick_replace is meant to produce), and sed's line-by-line
substitution and deletion semantics.
-/

/-- A filesystem: a partial map from paths to file contents. -/
def FS : Type := String → Option String

/-- Write (create or truncate-and-overwrite) the file at path `p`. -/
def FS.set (fs : FS) (p v : String) : FS := fun q => if q = p then some v else fs q

/-- Remove the file at path `p` (the effect of `rm -f p`). -/
def FS.del (fs : FS) (p : String) : FS := fun q => if q = p then none else fs q

/-- The empty filesystem. -/
def FS.empty : FS := fun _ => none

/-- Node's `existsSync`: true when the path is nonempty and bound
(`existsSync('')` is false in Node). -/
def FS.ex (fs : FS) (p : String) : Bool := p ≠ "" && (fs p).isSome

lemma String.length_append' (s t : String) : (s ++ t).length = s.length + t.length := by
  simp [String.length_append]

lemma append_ne_append_of_length_ne (f s t : String) (h : s.length ≠ t.length) :
    f ++ s ≠ f ++ t := by
  intro he
  exact h (by have := congrArg String.length he; simpa [String.length_append'] using this)

lemma append_ne_self_of_length_pos (f s : String) (h : 0 < s.length) : f ++ s ≠ f := by
  intro he
  have := congrArg String.length he
  rw [String.length_append'] at this
  omega

lemma append_ne_empty_of_length_pos (f s : String) (h : 0 < s.length) : f ++ s ≠ "" := by
  intro he
  have := congrArg String.length he
  rw [String.length_append', show ("" : String).length = 0 from rfl] at this
  omega

/-!
## restore_backup  (index.ts, `case 'restore_backup'`)

The handler looks for `file + ".bak"`.  If it is absent it probes the
alternate backup names `file~`, `file.backup`, `file.orig` and throws an
error mentioning any that exist; nothing is written.  Otherwise it reads the
backup, snapshots the current file content to `file + ".before-restore"`
(only when the file itself exists), overwrites the file with the backup
content, and removes the backup unless `keepBackup` is set.
-/

/-- The alternate backup names probed by restore_backup, filtered to those
that exist (source: the `alternatives` array). -/
def restoreAlternatives (file : String) (fs : FS) : List String :=
  [file ++ "~", file ++ ".backup", file ++ ".orig"].filter (fun p => fs.ex p)

/-- Shallow embedding of the `restore_backup` handler.  Returns the new
filesystem and either the success payload or the thrown error message. -/
def restore_backup (file : String) (keepBackup : Bool) (fs : FS) :
    FS × Except String String :=
  let backupFile := file ++ ".bak"
  if ¬ fs.ex backupFile then
    let alternatives := restoreAlternatives file fs
    if alternatives ≠ [] then
      (fs, .error ("No .bak file found, but found: " ++ String.intercalate ", " alternatives))
    else
      (fs, .error ("No backup file found for " ++ file))
  else
    let backupContent := (fs backupFile).getD ""
    let fs1 := if fs.ex file then fs.set (file ++ ".before-restore") ((fs file).getD "") else fs
    let fs2 := fs1.set file backupContent
    let fs3 := if keepBackup then fs2 else fs2.del backupFile
    (fs3, .ok ("Successfully restored " ++ file ++ " from backup"))

lemma restore_backup_no_bak_eq (file : String) (keepBackup : Bool) (fs : FS)
    (h : fs (file ++ ".bak") = none) :
    restore_backup file keepBackup fs =
      (fs, .error (if restoreAlternatives file fs ≠ [] then
          "No .bak file found, but found: " ++
            String.intercalate ", " (restoreAlternatives file fs)
        else "No backup file found for " ++ file)) := by
  rw [restore_backup]
  have hex : fs.ex (file ++ ".bak") = false := by simp [FS.ex, h]
  by_cases hne : restoreAlternatives file fs ≠ [] <;> simp [hex, hne]

/-- C2: when the expected backup `file + ".bak"` is absent, restore_backup
fails with a no-backup error that names the alternates that exist, modifies
no file (in particular neither the target nor any alternate backup), and
repeating the call any number of times still leaves the filesystem
unchanged. -/
theorem restore_backup_missing_bak (file : String) (keepBackup : Bool) (fs : FS)
    (h : fs (file ++ ".bak") = none) :
    (∀ p, (restore_backup file keepBackup fs).1 p = fs p) ∧
    ((restore_backup file keepBackup fs).2 =
      .error (if restoreAlternatives file fs ≠ [] then
          "No .bak file found, but found: " ++
            String.intercalate ", " (restoreAlternatives file fs)
        else "No backup file found for " ++ file)) ∧
    (∀ n, (fun s => (restore_backup file keepBackup s).1)^[n] fs = fs) := by
  have he := restore_backup_no_bak_eq file keepBackup fs h
  refine ⟨fun p => by rw [he], by rw [he], fun n => ?_⟩
  induction n with
  | zero => rfl
  | succ n ih =>
      rw [Function.iterate_succ_apply, he]
      exact ih

/-- A filesystem where `f` and `f.orig` exist but `f.bak` does not. -/
def fsNoBak : FS := (FS.empty.set "f" "CUR").set "f.orig" "OLD"

/-- Witness for C2 at a concrete filesystem: the call errors mentioning the
existing alternate `f.orig`, and both the target file and the alternate are
untouched. -/
theorem restore_backup_missing_bak_witness :
    (restore_backup "f" true fsNoBak).1 "f" = some "CUR" ∧
    (restore_backup "f" true fsNoBak).1 "f.orig" = some "OLD" ∧
    (restore_backup "f" true fsNoBak).2 =
      .error "No .bak file found, but found: f.orig" := by
  have H := restore_backup_missing_bak "f" true fsNoBak rfl
  refine ⟨(H.1 "f").trans (by rfl), (H.1 "f.orig").trans (by rfl), H.2.1.trans ?_⟩
  rfl

/-- A filesystem where the backup `f.bak` exists, the target `f` does not,
and a stale `f.before-restore` left by an earlier restore exists. -/
def fsStaleSnap : FS := (FS.empty.set "f.bak" "B").set "f.before-restore" "S"

/-- C9 counterexample: restoring a file whose target path does not currently
exist succeeds, yet no pre-restore snapshot is taken: `f.before-restore`
still holds its stale content "S", which is not the pre-restore content of
the target (the target had none).  So it is not the case that after every
successful restore the `.before-restore` file holds exactly the pre-restore
content of the target. -/
theorem restore_backup_snapshot_cex :
    fsStaleSnap "f" = none ∧
    (restore_backup "f" true fsStaleSnap).2 =
      .ok "Successfully restored f from backup" ∧
    (restore_backup "f" true fsStaleSnap).1 "f" = some "B" ∧
    (restore_backup "f" true fsStaleSnap).1 "f.before-restore" = some "S" := by
  refine ⟨rfl, ?_, ?_, ?_⟩ <;> rfl

/-- C9 (amended): on every restore_backup call where the target file
currently exists and its backup exists, the target's current content is
snapshotted to `file + ".before-restore"` before the target is overwritten,
so after the (successful) restore the snapshot holds exactly the pre-restore
content and the target holds the backup content. -/
theorem restore_backup_snapshot (file : String) (keepBackup : Bool) (fs : FS)
    (c b : String)
    (hfile : fs file = some c) (hbak : fs (file ++ ".bak") = some b)
    (hne : file ≠ "") :
    (restore_backup file keepBackup fs).2 =
      .ok ("Successfully restored " ++ file ++ " from backup") ∧
    (restore_backup file keepBackup fs).1 (file ++ ".before-restore") = some c ∧
    (restore_backup file keepBackup fs).1 file = some b := by
  have hexbak : fs.ex (file ++ ".bak") = true := by
    simp [FS.ex, hbak, append_ne_empty_of_length_pos file ".bak" (by decide)]
  have hexfile : fs.ex file = true := by simp [FS.ex, hfile, hne]
  have hsnap_ne_file : file ++ ".before-restore" ≠ file :=
    append_ne_self_of_length_pos file ".before-restore" (by decide)
  have hsnap_ne_bak : file ++ ".before-restore" ≠ file ++ ".bak" :=
    append_ne_append_of_length_ne file ".before-restore" ".bak" (by decide)
  have hfile_ne_bak : file ≠ file ++ ".bak" :=
    (append_ne_self_of_length_pos file ".bak" (by decide)).symm
  rw [restore_backup]
  simp only [hexbak, Bool.true_eq_false, not_false_eq_true, if_true, hexfile,
    Bool.not_true, ite_true, ite_false]
  refine ⟨by cases keepBackup <;> simp, ?_, ?_⟩ <;>
    cases keepBackup <;>
      simp [FS.set, FS.del, hsnap_ne_file, hsnap_ne_bak, hfile_ne_bak, hfile, hbak]

/-- A concrete filesystem where both `f` and `f.bak` exist. -/
def fsWithBak : FS := (FS.empty.set "f" "CUR").set "f.bak" "B"

/-- Witness for C9's amended theorem at a concrete filesystem. -/
theorem restore_backup_snapshot_witness :
    (restore_backup "f" false fsWithBak).2 =
      .ok "Successfully restored f from backup" ∧
    (restore_backup "f" false fsWithBak).1 "f.before-restore" = some "CUR" ∧
    (restore_backup "f" false fsWithBak).1 "f" = some "B" :=
  restore_backup_snapshot "f" false fsWithBak "CUR" "B" rfl rfl (by decide)

/-!
## diff_preview  (index.ts, `case 'diff_preview'`)

The handler copies the target file to a scratch path
`file + ".preview.tmp"` (the spawned shell command is
`rm -f .bak; cp '<file>' '<tempFile>'`, which also removes a file literally
named ".bak" in the working directory), applies the requested edit command
to the scratch copy with the selected tool, diffs the original against the
scratch copy (`diff -u ... || true`, which never fails), removes the scratch
copy, and returns the diff text.

Each step is a separate `await execAsync(...)`: when the edit command exits
non-zero the promise rejects, the exception propagates to the handler's
catch block, and the cleanup `rm -f '<tempFile>'` never runs.  The edit
command itself is abstracted by whether it succeeds and, if so, the content
it leaves in the scratch file; it only ever touches the scratch path.
-/

/-- Outcome of the tool-specific edit command diff_preview applies to the
scratch copy: whether the spawned process exits zero, and the content it
leaves in the scratch file when it does. -/
structure EditRun : Type where
  ok : Bool
  out : String

/-- Shallow embedding of the `diff_preview` handler.  `diffU old new` is the
text `diff -u` prints for the two contents (empty when they are equal). -/
def diff_preview (run : EditRun) (diffU : String → String → String)
    (file : String) (fs : FS) : FS × Except String String :=
  if ¬ fs.ex file then
    (fs, .error ("File not found: " ++ file))
  else
    let tempFile := file ++ ".preview.tmp"
    let orig := (fs file).getD ""
    let fs1 := (fs.del ".bak").set tempFile orig
    if ¬ run.ok then
      (fs1, .error "edit command failed")
    else
      let fs2 := fs1.set tempFile run.out
      let d := diffU orig run.out
      let fs3 := fs2.del tempFile
      (fs3, .ok (if d ≠ "" then "Preview of changes:\n" ++ d else "No changes would be made"))

/-- A filesystem holding the file `f.txt` (content "A") and its backup. -/
def fsPreview : FS := (FS.empty.set "f.txt" "A").set "f.txt.bak" "OLDBAK"

/-- C1: when the edit command underlying a diff_preview request fails, the
target file and its backup are indeed untouched, but the scratch copy
`f.txt.preview.tmp` is NOT removed: the cleanup step is unreachable because
the rejected promise propagates out of the handler.  This contradicts both
the claim and the tool's own help text ("Temp files are cleaned up"). -/
theorem diff_preview_failure_leaves_scratch :
    (diff_preview ⟨false, ""⟩ (fun _ _ => "") "f.txt" fsPreview).2 =
      .error "edit command failed" ∧
    (diff_preview ⟨false, ""⟩ (fun _ _ => "") "f.txt" fsPreview).1 "f.txt" = some "A" ∧
    (diff_preview ⟨false, ""⟩ (fun _ _ => "") "f.txt" fsPreview).1 "f.txt.bak" =
      some "OLDBAK" ∧
    (diff_preview ⟨false, ""⟩ (fun _ _ => "") "f.txt" fsPreview).1 "f.txt.preview.tmp" =
      some "A" := by
  refine ⟨?_, ?_, ?_, ?_⟩ <;> rfl

/-!
## quick_replace  (index.ts, `case 'quick_replace'`)

The handler escapes the find and replace texts

  escapedFind    = find.replace(/[.*+?^$\x7b\x7d()|[\]\\]/g, '\\$&')
                       .replace(/'/g, "'\\''")
  escapedReplace = replace.replace(/[&/\\]/g, '\\$&').replace(/'/g, "'\\''")

builds the sed script `s/escapedFind/escapedReplace/g` (all=true) or
`s/escapedFind/escapedReplace/` (all=false), and spawns
`sed -i.bak '<script>' '<file>'`.

The embedding follows the constructed command through each layer the real
invocation passes through: the shell's processing of the single-quoted
script argument (including the `'\''` idiom the escaping produces for a
quote), sed's parsing of the `s` command (delimiter `/`, terminated by an
optional flag list that must be empty or `g`; an empty pattern is an error
because no previous regular expression exists; a raw newline inside the
script is an unterminated command), and the denotation of the resulting
basic regular expression and replacement text.  The BRE denotation is
modelled on the fragment where the pattern stands for a literal string:
`\c` denotes a literal `c` for c in `.*[]^$\/` (for `( ) \x7b \x7d + ? |`
a backslash escape is SPECIAL in GNU sed's BRE, so those are rejected),
and an unescaped `. * [ ^ $` or newline is rejected as non-literal.
Commands outside this fragment are mapped to an error; every theorem below
stays inside the fragment, where the model coincides with sed.
sed substitutes per input line: without `g` the first match of the line,
with `g` every left-to-right match.
-/

/-- The characters the handler's first `.replace` escapes in `find`
(the JavaScript regex metacharacter set from the source). -/
def jsMeta : List Char :=
  ['.', '*', '+', '?', '^', '$', '\x7b', '\x7d', '(', ')', '|', '[', ']', '\x5c']

/-- The characters the handler escapes in `replace`: `& / \`. -/
def replMeta : List Char := ['&', '/', '\x5c']

/-- Image of one character of `find` under the source's two `.replace`
passes (backslash-escape the metacharacters, then turn each quote into the
shell idiom `'\''`). -/
def escFindChar (c : Char) : List Char :=
  if c ∈ jsMeta then ['\x5c', c]
  else if c = '\x27' then ['\x27', '\x5c', '\x27', '\x27']
  else [c]

/-- Image of one character of `replace` under the source's two `.replace`
passes. -/
def escReplChar (c : Char) : List Char :=
  if c ∈ replMeta then ['\x5c', c]
  else if c = '\x27' then ['\x27', '\x5c', '\x27', '\x27']
  else [c]

/-- `escapedFind` of the source. -/
def escapeFind (find : String) : String := ⟨(find.toList.map escFindChar).flatten⟩

/-- `escapedReplace` of the source. -/
def escapeReplace (repl : String) : String := ⟨(repl.toList.map escReplChar).flatten⟩

/-- The sed script the handler constructs (`pattern` in the source). -/
def quickReplacePattern (all : Bool) (find repl : String) : String :=
  "s/" ++ escapeFind find ++ "/" ++ escapeReplace repl ++ (if all then "/g" else "/")

/-- The script argument as it appears, single-quoted, in the spawned
command line. -/
def quickReplaceQuotedArg (all : Bool) (find repl : String) : List Char :=
  '\x27' :: (quickReplacePattern all find repl).toList ++ ['\x27']

/-- POSIX shell processing of one word: `inQ` says whether we are inside a
single-quoted span.  Inside quotes every character except `'` is literal;
outside, `\c` is a literal `c` and `'` toggles quoting.  An unterminated
quote is a syntax error. -/
def shUnq : Bool → List Char → Option (List Char)
  | true, [] => none
  | false, [] => some []
  | true, c :: rest =>
      if c = '\x27' then shUnq false rest
      else (shUnq true rest).map (fun l => c :: l)
  | false, c :: rest =>
      if c = '\x27' then shUnq true rest
      else if c = '\x5c' then
        match rest with
        | [] => none
        | d :: rest2 => (shUnq false rest2).map (fun l => d :: l)
      else (shUnq false rest).map (fun l => c :: l)

/-- Scan a sed script up to the next unescaped `/` delimiter, keeping
backslash-escaped pairs intact.  A raw newline or a missing delimiter is an
unterminated `s` command. -/
def splitDelim : List Char → Option (List Char × List Char)
  | [] => none
  | c :: rest =>
      if c = '/' then some ([], rest)
      else if c = '\n' then none
      else if c = '\x5c' then
        match rest with
        | [] => none
        | d :: rest2 => (splitDelim rest2).map (fun p => (c :: d :: p.1, p.2))
      else (splitDelim rest).map (fun p => (c :: p.1, p.2))

/-- A parsed `s/pat/rep/flags` command: the raw pattern, the raw
replacement, and whether the `g` flag is present. -/
structure SedSub : Type where
  pat : List Char
  rep : List Char
  global : Bool
deriving DecidableEq

/-- Parse a sed `s` command.  The flag list must be empty or exactly `g`
(the only ones quick_replace constructs); anything else — in particular the
trailing garbage produced when the find text contains an unescaped `/` —
is an error, as it is in sed.  An empty pattern is an error (`sed: no
previous regular expression`). -/
def parseSedSub (script : List Char) : Option SedSub :=
  match script with
  | 's' :: '/' :: rest =>
      match splitDelim rest with
      | none => none
      | some (pat, rest1) =>
          match splitDelim rest1 with
          | none => none
          | some (rep, rest2) =>
              if pat = [] then none
              else if rest2 = [] then some ⟨pat, rep, false⟩
              else if rest2 = ['g'] then some ⟨pat, rep, true⟩
              else none
  | _ => none

/-- Characters `c` for which the BRE `\c` denotes the literal `c`. -/
def breEscOk : List Char := ['.', '*', '[', ']', '^', '$', '\x5c', '/']

/-- Characters that are special (or unusable) in a BRE when unescaped. -/
def breSpecialPlain : List Char := ['.', '*', '[', '^', '$', '\n']

/-- Denotation of a sed basic regular expression on the literal fragment:
`some cs` when the pattern matches exactly the literal string `cs`, `none`
when the pattern uses (or mis-escapes into) a regex feature. -/
def breLiteral : List Char → Option (List Char)
  | [] => some []
  | c :: rest =>
      if c = '\x5c' then
        match rest with
        | [] => none
        | d :: rest2 =>
            if d ∈ breEscOk then (breLiteral rest2).map (fun l => d :: l) else none
      else if c ∈ breSpecialPlain then none
      else (breLiteral rest).map (fun l => c :: l)

/-- Denotation of a sed replacement text on the literal fragment: `\c` is
literal for `& / \`, an unescaped `&` (whole-match reference) or newline is
outside the fragment. -/
def sedReplLiteral : List Char → Option (List Char)
  | [] => some []
  | c :: rest =>
      if c = '\x5c' then
        match rest with
        | [] => none
        | d :: rest2 =>
            if d ∈ replMeta then (sedReplLiteral rest2).map (fun l => d :: l) else none
      else if c = '&' ∨ c = '\n' then none
      else (sedReplLiteral rest).map (fun l => c :: l)

/-- Replace the first occurrence of `f` in a line by `r`
(sed `s/f/r/` on one line).  With `f = []` sed would have errored earlier;
the guard keeps the function total. -/
def replaceFirst (f r : List Char) : List Char → List Char
  | [] => []
  | c :: s =>
      if f ≠ [] ∧ f.isPrefixOf (c :: s) then r ++ (c :: s).drop f.length
      else c :: replaceFirst f r s

/-- Fuelled worker for `replaceAll`; the fuel only bounds recursion depth
and is always at least the length of the text. -/
def replaceAllAux (f r : List Char) : Nat → List Char → List Char
  | 0, s => s
  | _ + 1, [] => []
  | fuel + 1, c :: s =>
      if f ≠ [] ∧ f.isPrefixOf (c :: s) then
        r ++ replaceAllAux f r fuel ((c :: s).drop f.length)
      else c :: replaceAllAux f r fuel s

/-- Replace every left-to-right occurrence of `f` in a line by `r`
(sed `s/f/r/g` on one line); the replacement text is not rescanned. -/
def replaceAll (f r s : List Char) : List Char := replaceAllAux f r s.length s

/-- Index of the first occurrence of `f` in `s`, if any. -/
def firstOcc (f : List Char) : List Char → Option Nat
  | [] => if f = [] then some 0 else none
  | c :: s =>
      if f.isPrefixOf (c :: s) then some 0 else (firstOcc f s).map (fun n => n + 1)

/-- Modelled from the spec: the intended literal find/replace semantics of
quick_replace — replace the first occurrence per line (`all = false`) or
every occurrence per line (`all = true`) of the literal find text. -/
def literalReplaceSpec (all : Bool) (find repl : String) (line : String) : String :=
  ⟨if all then replaceAll find.toList repl.toList line.toList
    else replaceFirst find.toList repl.toList line.toList⟩

/-- End-to-end behaviour of a quick_replace call on the target file's lines:
the constructed command line is shell-processed, the resulting sed script is
parsed, its pattern and replacement are interpreted on the literal BRE
fragment, and the substitution runs once per line.  Errors are the points
where the real spawned pipeline fails (or leaves the modelled fragment). -/
def runQuickReplace (all : Bool) (find repl : String) (lines : List String) :
    Except String (List String) :=
  match shUnq false (quickReplaceQuotedArg all find repl) with
  | none => .error "sh: unterminated quote"
  | some script =>
      match parseSedSub script with
      | none => .error "sed: invalid s command"
      | some sub =>
          match breLiteral sub.pat, sedReplLiteral sub.rep with
          | some patLit, some repLit =>
              .ok (lines.map (fun l =>
                ⟨if sub.global then replaceAll patLit repLit l.toList
                  else replaceFirst patLit repLit l.toList⟩))
          | _, _ => .error "pattern outside the modelled literal fragment"

/-- Characters of a find text that defeat the handler's escaping: the
unescaped delimiter `/`, the characters whose backslash-escape is special
in a BRE, and a raw newline. -/
def findBadChars : List Char := ['/', '(', ')', '\x7b', '\x7d', '+', '?', '|', '\n']


/-- What the shell delivers to sed for one character of `find`: the
backslash-escape for a metacharacter, the bare character otherwise (the
quote idiom collapses back to a single quote). -/
def sedSeenF (c : Char) : List Char := if c ∈ jsMeta then ['\x5c', c] else [c]

/-- What the shell delivers to sed for one character of `replace`. -/
def sedSeenR (c : Char) : List Char := if c ∈ replMeta then ['\x5c', c] else [c]

lemma toList_append' (s t : String) : (s ++ t).toList = s.toList ++ t.toList :=
  String.data_append s t

lemma shUnq_true_q (rest : List Char) : shUnq true ('\x27' :: rest) = shUnq false rest := by
  conv_lhs => rw [shUnq.eq_def]
  simp

lemma shUnq_true_c (c : Char) (h : c ≠ '\x27') (rest : List Char) :
    shUnq true (c :: rest) = (shUnq true rest).map (fun l => c :: l) := by
  conv_lhs => rw [shUnq.eq_def]
  simp [h]

lemma shUnq_false_q (rest : List Char) : shUnq false ('\x27' :: rest) = shUnq true rest := by
  conv_lhs => rw [shUnq.eq_def]
  simp

lemma shUnq_false_bs (d : Char) (rest : List Char) :
    shUnq false ('\x5c' :: d :: rest) = (shUnq false rest).map (fun l => d :: l) := by
  conv_lhs => rw [shUnq.eq_def]
  simp

lemma shUnq_escFindChar (c : Char) (rest : List Char) :
    shUnq true (escFindChar c ++ rest) =
      (shUnq true rest).map (fun l => sedSeenF c ++ l) := by
  by_cases hm : c ∈ jsMeta
  · have hq : c ≠ '\x27' := by intro h; subst h; revert hm; decide
    rw [show escFindChar c = ['\x5c', c] from by simp [escFindChar, hm],
      show sedSeenF c = ['\x5c', c] from by simp [sedSeenF, hm]]
    rw [List.cons_append, List.cons_append, List.nil_append,
      shUnq_true_c '\x5c' (by decide) _, shUnq_true_c c hq rest]
    cases shUnq true rest <;> rfl
  · by_cases hq : c = '\x27'
    · subst hq
      rw [show escFindChar '\x27' = ['\x27', '\x5c', '\x27', '\x27'] from by
          simp [escFindChar, hm],
        show sedSeenF '\x27' = ['\x27'] from by simp [sedSeenF, hm]]
      simp only [List.cons_append, List.nil_append]
      rw [shUnq_true_q, shUnq_false_bs, shUnq_false_q]
    · rw [show escFindChar c = [c] from by simp [escFindChar, hm, hq],
        show sedSeenF c = [c] from by simp [sedSeenF, hm]]
      rw [List.cons_append, List.nil_append, shUnq_true_c c hq rest]
      cases shUnq true rest <;> rfl

lemma shUnq_escReplChar (c : Char) (rest : List Char) :
    shUnq true (escReplChar c ++ rest) =
      (shUnq true rest).map (fun l => sedSeenR c ++ l) := by
  by_cases hm : c ∈ replMeta
  · have hq : c ≠ '\x27' := by intro h; subst h; revert hm; decide
    rw [show escReplChar c = ['\x5c', c] from by simp [escReplChar, hm],
      show sedSeenR c = ['\x5c', c] from by simp [sedSeenR, hm]]
    rw [List.cons_append, List.cons_append, List.nil_append,
      shUnq_true_c '\x5c' (by decide) _, shUnq_true_c c hq rest]
    cases shUnq true rest <;> rfl
  · by_cases hq : c = '\x27'
    · subst hq
      rw [show escReplChar '\x27' = ['\x27', '\x5c', '\x27', '\x27'] from by
          simp [escReplChar, hm],
        show sedSeenR '\x27' = ['\x27'] from by simp [sedSeenR, hm]]
      simp only [List.cons_append, List.nil_append]
      rw [shUnq_true_q, shUnq_false_bs, shUnq_false_q]
    · rw [show escReplChar c = [c] from by simp [escReplChar, hm, hq],
        show sedSeenR c = [c] from by simp [sedSeenR, hm]]
      rw [List.cons_append, List.nil_append, shUnq_true_c c hq rest]
      cases shUnq true rest <;> rfl

lemma shUnq_escFind_flatten (l : List Char) (rest : List Char) :
    shUnq true ((l.map escFindChar).flatten ++ rest) =
      (shUnq true rest).map (fun t => (l.map sedSeenF).flatten ++ t) := by
  induction l with
  | nil => cases h : shUnq true rest <;> simp [h]
  | cons c l ih =>
      rw [List.map_cons, List.flatten_cons, List.append_assoc, shUnq_escFindChar, ih]
      cases h : shUnq true rest <;> simp [h]

lemma shUnq_escRepl_flatten (l : List Char) (rest : List Char) :
    shUnq true ((l.map escReplChar).flatten ++ rest) =
      (shUnq true rest).map (fun t => (l.map sedSeenR).flatten ++ t) := by
  induction l with
  | nil => cases h : shUnq true rest <;> simp [h]
  | cons c l ih =>
      rw [List.map_cons, List.flatten_cons, List.append_assoc, shUnq_escReplChar, ih]
      cases h : shUnq true rest <;> simp [h]

lemma splitDelim_slash (rest : List Char) : splitDelim ('/' :: rest) = some ([], rest) := by
  conv_lhs => rw [splitDelim.eq_def]
  simp

lemma splitDelim_bs (d : Char) (rest : List Char) :
    splitDelim ('\x5c' :: d :: rest) =
      (splitDelim rest).map (fun p => ('\x5c' :: d :: p.1, p.2)) := by
  conv_lhs => rw [splitDelim.eq_def]
  simp

lemma splitDelim_plain (c : Char) (h1 : c ≠ '/') (h2 : c ≠ '\n') (h3 : c ≠ '\x5c')
    (rest : List Char) :
    splitDelim (c :: rest) = (splitDelim rest).map (fun p => (c :: p.1, p.2)) := by
  conv_lhs => rw [splitDelim.eq_def]
  simp [h1, h2, h3]

lemma splitDelim_seenF (l : List Char) (rest : List Char)
    (h : ∀ c ∈ l, c ≠ '/' ∧ c ≠ '\n') :
    splitDelim ((l.map sedSeenF).flatten ++ '/' :: rest) =
      some ((l.map sedSeenF).flatten, rest) := by
  induction l with
  | nil => simp [splitDelim_slash]
  | cons c l ih =>
      have hc := h c (by simp)
      have ih' := ih (fun d hd => h d (by simp [hd]))
      by_cases hm : c ∈ jsMeta
      · simp only [List.map_cons, List.flatten_cons, List.cons_append, List.nil_append,
          List.append_assoc]
        rw [show sedSeenF c = ['\x5c', c] from by simp [sedSeenF, hm]]
        simp only [List.cons_append, List.nil_append]
        rw [splitDelim_bs, ih']
        rfl
      · have hcbs : c ≠ '\x5c' := by intro h; subst h; revert hm; decide
        simp only [List.map_cons, List.flatten_cons, List.cons_append, List.nil_append,
          List.append_assoc]
        rw [show sedSeenF c = [c] from by simp [sedSeenF, hm]]
        simp only [List.cons_append, List.nil_append]
        rw [splitDelim_plain c hc.1 hc.2 hcbs, ih']
        rfl

lemma splitDelim_seenR (l : List Char) (rest : List Char)
    (h : ∀ c ∈ l, c ≠ '\n') :
    splitDelim ((l.map sedSeenR).flatten ++ '/' :: rest) =
      some ((l.map sedSeenR).flatten, rest) := by
  induction l with
  | nil => simp [splitDelim_slash]
  | cons c l ih =>
      have hc := h c (by simp)
      have ih' := ih (fun d hd => h d (by simp [hd]))
      by_cases hm : c ∈ replMeta
      · simp only [List.map_cons, List.flatten_cons, List.cons_append, List.nil_append,
          List.append_assoc]
        rw [show sedSeenR c = ['\x5c', c] from by simp [sedSeenR, hm]]
        simp only [List.cons_append, List.nil_append]
        rw [splitDelim_bs, ih']
        rfl
      · have hslash : c ≠ '/' := by intro h; subst h; revert hm; decide
        have hcbs : c ≠ '\x5c' := by intro h; subst h; revert hm; decide
        simp only [List.map_cons, List.flatten_cons, List.cons_append, List.nil_append,
          List.append_assoc]
        rw [show sedSeenR c = [c] from by simp [sedSeenR, hm]]
        simp only [List.cons_append, List.nil_append]
        rw [splitDelim_plain c hslash hc hcbs, ih']
        rfl

lemma breLiteral_bs (d : Char) (h : d ∈ breEscOk) (rest : List Char) :
    breLiteral ('\x5c' :: d :: rest) = (breLiteral rest).map (fun l => d :: l) := by
  conv_lhs => rw [breLiteral.eq_def]
  simp [h]

lemma breLiteral_plain (c : Char) (h1 : c ≠ '\x5c') (h2 : c ∉ breSpecialPlain)
    (rest : List Char) :
    breLiteral (c :: rest) = (breLiteral rest).map (fun l => c :: l) := by
  conv_lhs => rw [breLiteral.eq_def]
  simp [h1, h2]

lemma mem_breEscOk_of_meta (c : Char) (h1 : c ∈ jsMeta) (h2 : c ∉ findBadChars) :
    c ∈ breEscOk := by
  fin_cases h1 <;> revert h2 <;> decide

lemma not_breSpecialPlain (c : Char) (h1 : c ∉ jsMeta) (h2 : c ∉ findBadChars) :
    c ∉ breSpecialPlain := by
  intro hmem
  fin_cases hmem <;> revert h1 h2 <;> decide

lemma breLiteral_seenF (l : List Char) (h : ∀ c ∈ l, c ∉ findBadChars) :
    breLiteral ((l.map sedSeenF).flatten) = some l := by
  induction l with
  | nil => rfl
  | cons c l ih =>
      have hc := h c (by simp)
      have ih' := ih (fun d hd => h d (by simp [hd]))
      by_cases hm : c ∈ jsMeta
      · simp only [List.map_cons, List.flatten_cons, List.cons_append, List.nil_append]
        rw [show sedSeenF c = ['\x5c', c] from by simp [sedSeenF, hm]]
        simp only [List.cons_append, List.nil_append]
        rw [breLiteral_bs c (mem_breEscOk_of_meta c hm hc), ih']
        rfl
      · have hcbs : c ≠ '\x5c' := by intro h; subst h; revert hm; decide
        simp only [List.map_cons, List.flatten_cons, List.cons_append, List.nil_append]
        rw [show sedSeenF c = [c] from by simp [sedSeenF, hm]]
        simp only [List.cons_append, List.nil_append]
        rw [breLiteral_plain c hcbs (not_breSpecialPlain c hm hc), ih']
        rfl

lemma sedReplLiteral_bs (d : Char) (h : d ∈ replMeta) (rest : List Char) :
    sedReplLiteral ('\x5c' :: d :: rest) = (sedReplLiteral rest).map (fun l => d :: l) := by
  conv_lhs => rw [sedReplLiteral.eq_def]
  simp [h]

lemma sedReplLiteral_plain (c : Char) (h1 : c ≠ '\x5c') (h2 : ¬(c = '&' ∨ c = '\n'))
    (rest : List Char) :
    sedReplLiteral (c :: rest) = (sedReplLiteral rest).map (fun l => c :: l) := by
  conv_lhs => rw [sedReplLiteral.eq_def]
  simp [h1, h2, not_or.mp h2]

lemma sedReplLiteral_seenR (l : List Char) (h : ∀ c ∈ l, c ≠ '\n') :
    sedReplLiteral ((l.map sedSeenR).flatten) = some l := by
  induction l with
  | nil => rfl
  | cons c l ih =>
      have hc := h c (by simp)
      have ih' := ih (fun d hd => h d (by simp [hd]))
      by_cases hm : c ∈ replMeta
      · simp only [List.map_cons, List.flatten_cons, List.cons_append, List.nil_append]
        rw [show sedSeenR c = ['\x5c', c] from by simp [sedSeenR, hm]]
        simp only [List.cons_append, List.nil_append]
        rw [sedReplLiteral_bs c hm, ih']
        rfl
      · have hcbs : c ≠ '\x5c' := by intro h; subst h; revert hm; decide
        have hamp : c ≠ '&' := by intro h; subst h; revert hm; decide
        simp only [List.map_cons, List.flatten_cons, List.cons_append, List.nil_append]
        rw [show sedSeenR c = [c] from by simp [sedSeenR, hm]]
        simp only [List.cons_append, List.nil_append]
        rw [sedReplLiteral_plain c hcbs (by simp [hamp, hc]), ih']
        rfl

lemma sedSeenF_flatten_ne_nil (l : List Char) (h : l ≠ []) :
    (l.map sedSeenF).flatten ≠ [] := by
  cases l with
  | nil => exact absurd rfl h
  | cons c l =>
      have hne : sedSeenF c ≠ [] := by by_cases hm : c ∈ jsMeta <;> simp [sedSeenF, hm]
      rw [List.map_cons, List.flatten_cons]
      exact List.append_ne_nil_of_left_ne_nil hne _

lemma toList_ne_nil (s : String) (h : s ≠ "") : s.toList ≠ [] := by
  intro he
  apply h
  apply String.toList_inj.mp
  rw [he, String.toList_empty]

lemma toList_mk (l : List Char) : (String.mk l).toList = l := rfl

lemma quickReplacePattern_toList (all : Bool) (find repl : String) :
    (quickReplacePattern all find repl).toList =
      's' :: '/' :: ((find.toList.map escFindChar).flatten ++
        '/' :: ((repl.toList.map escReplChar).flatten ++
          '/' :: (if all then ['g'] else []))) := by
  cases all <;>
    simp [quickReplacePattern, toList_append', escapeFind, escapeReplace, toList_mk,
      show ("s/" : String).toList = ['s', '/'] from rfl,
      show ("/" : String).toList = ['/'] from rfl,
      show ("/g" : String).toList = ['/', 'g'] from rfl]

lemma shUnq_quickReplaceQuotedArg (all : Bool) (find repl : String) :
    shUnq false (quickReplaceQuotedArg all find repl) =
      some ('s' :: '/' :: ((find.toList.map sedSeenF).flatten ++
        '/' :: ((repl.toList.map sedSeenR).flatten ++
          '/' :: (if all then ['g'] else [])))) := by
  rw [quickReplaceQuotedArg, quickReplacePattern_toList]
  rw [show ('\x27' :: ('s' :: '/' :: ((find.toList.map escFindChar).flatten ++
        '/' :: ((repl.toList.map escReplChar).flatten ++
          '/' :: (if all then ['g'] else [])))) ++ ['\x27']) =
      '\x27' :: 's' :: '/' :: ((find.toList.map escFindChar).flatten ++
        '/' :: ((repl.toList.map escReplChar).flatten ++
          '/' :: ((if all then ['g'] else []) ++ ['\x27']))) from by simp]
  rw [shUnq_false_q, shUnq_true_c 's' (by decide), shUnq_true_c '/' (by decide),
    shUnq_escFind_flatten, shUnq_true_c '/' (by decide), shUnq_escRepl_flatten,
    shUnq_true_c '/' (by decide)]
  cases all
  · rw [show ((if false then ['g'] else []) ++ ['\x27']) = ['\x27'] from by simp]
    rw [shUnq_true_q]
    rfl
  · rw [show ((if true then ['g'] else []) ++ ['\x27']) = 'g' :: ['\x27'] from by simp]
    rw [shUnq_true_c 'g' (by decide), shUnq_true_q]
    rfl

lemma parseSedSub_seen (all : Bool) (find repl : String)
    (h0 : find ≠ "")
    (h1 : ∀ c ∈ find.toList, c ≠ '/' ∧ c ≠ '\n')
    (h2 : ∀ c ∈ repl.toList, c ≠ '\n') :
    parseSedSub ('s' :: '/' :: ((find.toList.map sedSeenF).flatten ++
        '/' :: ((repl.toList.map sedSeenR).flatten ++
          '/' :: (if all then ['g'] else [])))) =
      some ⟨(find.toList.map sedSeenF).flatten,
        (repl.toList.map sedSeenR).flatten, all⟩ := by
  have hFne : (find.toList.map sedSeenF).flatten ≠ [] :=
    sedSeenF_flatten_ne_nil _ (toList_ne_nil find h0)
  rw [parseSedSub]
  rw [splitDelim_seenF _ _ h1]
  simp only [splitDelim_seenR _ _ h2]
  have hx : ∀ x : Char, sedSeenF x ≠ [] := fun x => by
    by_cases hm : x ∈ jsMeta <;> simp [sedSeenF, hm]
  have hd : find.data ≠ [] := toList_ne_nil find h0
  cases all <;> simp [hFne] <;>
    obtain ⟨x, hxmem⟩ := List.exists_mem_of_ne_nil _ hd <;>
      exact ⟨x, hxmem, hx x⟩

lemma runQuickReplace_eq_literal (all : Bool) (find repl : String) (lines : List String)
    (h0 : find ≠ "")
    (h1 : ∀ c ∈ find.toList, c ∉ findBadChars)
    (h2 : ∀ c ∈ repl.toList, c ≠ '\n') :
    runQuickReplace all find repl lines =
      .ok (lines.map (literalReplaceSpec all find repl)) := by
  have hsplitF : ∀ c ∈ find.toList, c ≠ '/' ∧ c ≠ '\n' := by
    intro c hc
    have hbad := h1 c hc
    constructor <;> intro he <;> subst he <;> exact hbad (by decide)
  rw [runQuickReplace, shUnq_quickReplaceQuotedArg]
  simp only [parseSedSub_seen all find repl h0 hsplitF h2,
    breLiteral_seenF find.toList h1, sedReplLiteral_seenR repl.toList h2]
  rfl

lemma replaceFirst_no_occ (f r : List Char) :
    ∀ s : List Char, firstOcc f s = none → replaceFirst f r s = s := by
  intro s
  induction s with
  | nil => intro _; rfl
  | cons c s ih =>
      intro h
      rw [firstOcc] at h
      by_cases hp : f.isPrefixOf (c :: s)
      · simp [hp] at h
      · rw [replaceFirst, if_neg (by simp [hp])]
        simp only [hp, if_false, Option.map_eq_none'] at h
        rw [ih (by simpa using h)]

lemma replaceFirst_first_occ (f r : List Char) (hf : f ≠ []) :
    ∀ (s : List Char) (k : Nat), firstOcc f s = some k →
      replaceFirst f r s = s.take k ++ r ++ s.drop (k + f.length) := by
  intro s
  induction s with
  | nil =>
      intro k h
      rw [firstOcc, if_neg hf] at h
      exact absurd h (by simp)
  | cons c s ih =>
      intro k h
      rw [firstOcc] at h
      by_cases hp : f.isPrefixOf (c :: s)
      · rw [if_pos hp] at h
        obtain rfl : k = 0 := by simpa using h.symm
        rw [replaceFirst, if_pos ⟨hf, hp⟩]
        simp
      · rw [if_neg hp] at h
        obtain ⟨k', hk', rfl⟩ : ∃ k', firstOcc f s = some k' ∧ k = k' + 1 := by
          cases ho : firstOcc f s with
          | none => rw [ho] at h; exact absurd h (by simp)
          | some k' => rw [ho] at h; exact ⟨k', rfl, by simpa using h.symm⟩
        rw [replaceFirst, if_neg (by simp [hp])]
        rw [ih k' hk']
        simp only [List.take_succ_cons, List.cons_append]
        rw [show k' + 1 + f.length = (k' + f.length) + 1 from by omega]
        rfl

/-- C4 counterexample: the handler's escaping does not escape the sed
delimiter `/` in the find text (`escapeFind "a/b" = "a/b"`), so the
constructed command `s/a/b/c/g` misparses (trailing garbage after the third
delimiter) and the request fails instead of performing the literal
replacement of "a/b" by "c". -/
theorem quick_replace_escaping_cex :
    escapeFind "a/b" = "a/b" ∧
    runQuickReplace true "a/b" "c" ["xa/by"] = .error "sed: invalid s command" ∧
    runQuickReplace true "a/b" "c" ["xa/by"] ≠ .ok ["xcy"] := by
  refine ⟨rfl, rfl, fun h => ?_⟩
  rw [show runQuickReplace true "a/b" "c" ["xa/by"] =
      .error "sed: invalid s command" from rfl] at h
  exact Except.noConfusion h

/-- C4 (amended): quick_replace escapes the JavaScript regex metacharacter
set in the find text, `& / \` in the replacement text, and single quotes
for the shell; for every find text free of `/`, of the characters whose
backslash-escape is special in a basic regular expression
(`( ) \x7b \x7d + ? |`), and of newline, and every replacement text free of
newline, the constructed command performs exactly literal text
replacement (first occurrence per line without the `g` flag, every
occurrence per line with it).  A find text containing `/` breaks the
constructed command instead. -/
theorem quick_replace_escaping_literal (all : Bool) (find repl : String)
    (lines : List String)
    (h0 : find ≠ "")
    (h1 : ∀ c ∈ find.toList, c ∉ findBadChars)
    (h2 : ∀ c ∈ repl.toList, c ≠ '\n') :
    runQuickReplace all find repl lines =
      .ok (lines.map (literalReplaceSpec all find repl)) :=
  runQuickReplace_eq_literal all find repl lines h0 h1 h2

/-- Witness for C4's amended theorem: metacharacters `.` (in find) and `&`
(in replace) are handled literally, on both occurrences of the find text in
the line. -/
theorem quick_replace_escaping_literal_witness :
    runQuickReplace true "a.b" "x&y" ["za.bqa.b"] =
      .ok (["za.bqa.b"].map (literalReplaceSpec true "a.b" "x&y")) ∧
    literalReplaceSpec true "a.b" "x&y" "za.bqa.b" = "zx&yqx&y" :=
  ⟨quick_replace_escaping_literal true "a.b" "x&y" ["za.bqa.b"] (by decide)
    (by decide) (by decide), rfl⟩

/-- C3 counterexample: with `all = false` on the two-line file
`old\nold`, quick_replace (a sed `s/old/new/` invocation) rewrites BOTH
lines — sed substitutes the first occurrence of each line, not the first
occurrence of the whole file — so the result differs from the original in
two occurrences, not at most one. -/
theorem quick_replace_per_line_cex :
    runQuickReplace false "old" "new" ["old", "old"] = .ok ["new", "new"] ∧
    (["new", "new"] : List String) ≠ ["new", "old"] := by
  exact ⟨rfl, by decide⟩

/-- C3 (amended): quick_replace is per-line.  With `all = false` each line
independently has at most its first occurrence of the find text replaced: a
line without the find text is unchanged, and a line whose first occurrence
starts at `k` becomes prefix ++ replacement ++ suffix with everything after
that one occurrence intact.  With `all = true` every line is rewritten by
replacing every left-to-right occurrence.  (Hypotheses as in the escaping
theorem: the find/replace texts avoid the characters that break the
constructed command.) -/
theorem quick_replace_occurrences (find repl : String) (lines : List String)
    (h0 : find ≠ "")
    (h1 : ∀ c ∈ find.toList, c ∉ findBadChars)
    (h2 : ∀ c ∈ repl.toList, c ≠ '\n') :
    (runQuickReplace false find repl lines =
      .ok (lines.map (literalReplaceSpec false find repl))) ∧
    (runQuickReplace true find repl lines =
      .ok (lines.map (literalReplaceSpec true find repl))) ∧
    (∀ line : String, firstOcc find.toList line.toList = none →
      literalReplaceSpec false find repl line = line) ∧
    (∀ (line : String) (k : Nat), firstOcc find.toList line.toList = some k →
      (literalReplaceSpec false find repl line).toList =
        line.toList.take k ++ repl.toList ++ line.toList.drop (k + find.toList.length)) := by
  refine ⟨runQuickReplace_eq_literal false find repl lines h0 h1 h2,
    runQuickReplace_eq_literal true find repl lines h0 h1 h2, ?_, ?_⟩
  · intro line hnone
    apply String.toList_inj.mp
    rw [literalReplaceSpec]
    simp only [Bool.false_eq_true, if_false, toList_mk]
    exact replaceFirst_no_occ find.toList repl.toList line.toList hnone
  · intro line k hk
    rw [literalReplaceSpec]
    simp only [Bool.false_eq_true, if_false, toList_mk]
    exact replaceFirst_first_occ find.toList repl.toList
      (toList_ne_nil find h0) line.toList k hk

/-- Witness for C3's amended theorem on the two-line file `old\nold`. -/
theorem quick_replace_occurrences_witness :
    (runQuickReplace false "old" "new" ["old", "old"] =
      .ok ((["old", "old"] : List String).map (literalReplaceSpec false "old" "new"))) ∧
    (runQuickReplace true "old" "new" ["old", "old"] =
      .ok ((["old", "old"] : List String).map (literalReplaceSpec true "old" "new"))) ∧
    (∀ line : String, firstOcc "old".toList line.toList = none →
      literalReplaceSpec false "old" "new" line = line) ∧
    (∀ (line : String) (k : Nat), firstOcc "old".toList line.toList = some k →
      (literalReplaceSpec false "old" "new" line).toList =
        line.toList.take k ++ "new".toList ++ line.toList.drop (k + "old".toList.length)) :=
  quick_replace_occurrences "old" "new" ["old", "old"] (by decide) (by decide) (by decide)

/-!
## read_file, search_in_file, show_around_line
(index.ts, `case 'read_file'`, `case 'search_in_file'`, `case 'show_around_line'`)

The file content is split on newline into `fileLines`.  Line numbers are
rendered with JavaScript's `(n).toString().padStart(4)`.

read_file's lines mode resolves `start` and `end` (the `$` sentinel becomes
the line count) and slices with JavaScript `Array.prototype.slice(start-1,
end)` — which clamps, so there is no bounds check.  search_in_file builds
`new RegExp(pattern, 'g')` once and calls `regex.test(line)` per line: with
the `g` flag the regex object's `lastIndex` persists across calls (a
successful test sets it to the match end, a failed test resets it to 0), so
the next line's test starts scanning at the previous match's end offset.
The regex is modelled on literal string patterns, which suffices for every
theorem below.  show_around_line checks bounds explicitly and renders a
window of `context` lines around the target with a `>` marker.
-/

/-- JavaScript `(s).padStart(4)`. -/
def padStart4 (s : String) : String :=
  if s.length ≥ 4 then s else ⟨List.replicate (4 - s.length) ' '⟩ ++ s

/-- Resolve a JavaScript slice index against a length (ECMAScript: negative
indices count from the end and everything clamps into `[0, len]`). -/
def jsRel (len : Nat) (i : Int) : Nat :=
  if i < 0 then ((len : Int) + i).toNat else min i.toNat len

/-- JavaScript `Array.prototype.slice(s, e)`. -/
def jsSlice (l : List String) (s e : Int) : List String :=
  let a := jsRel l.length s
  let b := jsRel l.length e
  (l.drop a).take (b - a)

/-- read_file's lines mode for a resolved `start`/`end` pair (both 1-based;
a `$` end has already been resolved to the line count).  The source slices
with `fileLines.slice(start - 1, end)` and numbers each line with
`start + index`; no bounds check of any kind is performed, so the result is
always a success payload. -/
def read_file_lines (start endv : Int) (fileLines : List String) :
    Except String (List String) :=
  .ok ((jsSlice fileLines (start - 1) endv).enum.map
    (fun p => padStart4 (toString (start + (p.1 : Int))) ++ ": " ++ p.2))

/-- read_file's full-file mode: at most the first `maxLines = 100` lines,
numbered, plus a truncation notice when the file is longer. -/
def read_file_full (fileLines : List String) : List String × String :=
  let maxLines := 100
  let displayLines := if fileLines.length > maxLines then fileLines.take maxLines
    else fileLines
  let numberedLines := displayLines.enum.map
    (fun p => padStart4 (toString (p.1 + 1)) ++ ": " ++ p.2)
  let truncated := if fileLines.length > maxLines then
      "\n... (showing first " ++ toString maxLines ++ " of " ++
        toString fileLines.length ++ " lines)"
    else ""
  (numberedLines, truncated)

/-- show_around_line: bounds-checked, then a window of `context` lines
around the (1-based) target line, the target marked with `>`. -/
def show_around_line (lineNumber : Int) (context : Nat) (fileLines : List String) :
    Except String (List String) :=
  if lineNumber < 1 ∨ lineNumber > fileLines.length then
    .error ("Line number " ++ toString lineNumber ++ " is out of range (file has " ++
      toString fileLines.length ++ " lines)")
  else
    let t := lineNumber.toNat
    let startLine := max 1 (t - context)
    let endLine := min fileLines.length (t + context)
    .ok ((List.range' startLine (endLine + 1 - startLine)).map (fun i =>
      (if i = t then ">" else " ") ++ " " ++ padStart4 (toString i) ++ ": " ++
        fileLines.getD (i - 1) ""))

/-- First match of the literal pattern `pat` in `s` at or after offset
`start` (the scan a JavaScript global regex performs from `lastIndex`). -/
def firstMatchFrom (pat s : List Char) (start : Nat) : Option Nat :=
  (List.range (s.length + 1)).find? (fun i => decide (start ≤ i) && pat.isPrefixOf (s.drop i))

/-- The 0-based indices of the lines search_in_file reports as matches:
the loop carries the regex object's `lastIndex` across lines
(`regex.test` with the `g` flag sets it to the match end on success and to
0 on failure). -/
def searchHitsAux (pat : List Char) : List String → Nat → Nat → List Nat
  | [], _, _ => []
  | line :: rest, i, li =>
      match firstMatchFrom pat line.toList li with
      | some j => i :: searchHitsAux pat rest (i + 1) (j + pat.length)
      | none => searchHitsAux pat rest (i + 1) 0

/-- The reported match lines of `search_in_file pattern` over `fileLines`
(0-based). -/
def searchHits (pat : List Char) (fileLines : List String) : List Nat :=
  searchHitsAux pat fileLines 0 0

/-- The block search_in_file renders for the `m`-th match found at 0-based
line index `idx`: a header, then the lines from `max(0, idx - c)` to
`min(lineCount - 1, idx + c)` (0-based), each numbered 1-based and padded,
the matched line marked with `>`. -/
def matchBlock (fileLines : List String) (m idx c : Nat) : List String :=
  ("\n--- Match " ++ toString m ++ " at line " ++ toString (idx + 1) ++ " ---") ::
    (List.range' (idx - c) (min (fileLines.length - 1) (idx + c) + 1 - (idx - c))).map
      (fun i => (if i = idx then ">" else " ") ++ " " ++ padStart4 (toString (i + 1)) ++
        ": " ++ fileLines.getD i "")

/-- The single pass of search_in_file: state `(i, li, mc)` is the current
0-based line index, the regex object's `lastIndex`, and `matchCount`. -/
def searchRenderAux (pat : List Char) (c : Nat) (fileLines : List String) :
    List String → Nat → Nat → Nat → List String
  | [], _, _, _ => []
  | line :: rest, i, li, mc =>
      match firstMatchFrom pat line.toList li with
      | some j => matchBlock fileLines (mc + 1) i c ++
          searchRenderAux pat c fileLines rest (i + 1) (j + pat.length) (mc + 1)
      | none => searchRenderAux pat c fileLines rest (i + 1) 0 mc

/-- The rendered result lines of a search_in_file call. -/
def search_in_file (pat : List Char) (c : Nat) (fileLines : List String) : List String :=
  searchRenderAux pat c fileLines fileLines 0 0 0

/-- C7: search_in_file misses matching lines.  On the two-line file `a\na`
with pattern "a", line 2 (0-based index 1) matches the pattern when tested
afresh, yet only line 1 (index 0) is reported: the global regex's
`lastIndex`, left at 1 by the first line's successful test, makes the
second line's test scan from offset 1 and fail.  The claim that a match is
reported for every matching line is right and the code is wrong. -/
theorem search_in_file_skips_matching_line :
    searchHits "a".toList ["a", "a"] = [0] ∧
    firstMatchFrom "a".toList "a".toList 0 = some 0 ∧
    searchHits "a".toList ["a", "a"] ≠ [0, 1] := by
  refine ⟨rfl, rfl, fun h => ?_⟩
  rw [show searchHits "a".toList ["a", "a"] = [0] from rfl] at h
  exact absurd h (by decide)

/-- C5 counterexample: read_file's lines mode performs no bounds check.
On the 3-line file, the out-of-range request `lines=5-7` SUCCEEDS with an
empty excerpt (no bounds error), and `lines=2-9`, whose end exceeds the
line count, succeeds with the excerpt silently clamped to lines 2-3. -/
theorem read_file_lines_no_bounds_cex :
    read_file_lines 5 7 ["a", "b", "c"] = .ok [] ∧
    read_file_lines 2 9 ["a", "b", "c"] = .ok ["   2: b", "   3: c"] := ⟨rfl, rfl⟩

/-- C5 (amended): only show_around_line enforces the bounds policy: it
fails with the out-of-range error exactly when the target line is below 1
or beyond the line count, and succeeds in range.  read_file's lines mode
never raises a bounds error: every request succeeds, a start beyond the
line count yields an empty excerpt, and an end beyond the line count is
silently clamped to the end of the file. -/
theorem explicit_range_bounds (start endv t : Int) (c : Nat) (fileLines : List String) :
    (∃ payload, read_file_lines start endv fileLines = .ok payload) ∧
    ((t < 1 ∨ t > fileLines.length) →
      show_around_line t c fileLines = .error ("Line number " ++ toString t ++
        " is out of range (file has " ++ toString fileLines.length ++ " lines)")) ∧
    (1 ≤ t → t ≤ fileLines.length →
      ∃ payload, show_around_line t c fileLines = .ok payload) ∧
    ((fileLines.length : Int) < start → read_file_lines start endv fileLines = .ok []) ∧
    (1 ≤ start → (fileLines.length : Int) ≤ endv →
      read_file_lines start endv fileLines =
        read_file_lines start (fileLines.length : Int) fileLines) := by
  refine ⟨⟨_, rfl⟩, ?_, ?_, ?_, ?_⟩
  · intro h
    rw [show_around_line, if_pos h]
  · intro h1 h2
    rw [show_around_line, if_neg (by omega)]
    exact ⟨_, rfl⟩
  · intro h
    have ha : jsRel fileLines.length (start - 1) = fileLines.length := by
      rw [jsRel]; split
      · omega
      · rw [Nat.min_def]; split <;> omega
    simp only [read_file_lines, jsSlice, ha, List.drop_length, List.take_nil,
      List.enum_nil, List.map_nil]
  · intro h1 h2
    have hb1 : jsRel fileLines.length endv = fileLines.length := by
      rw [jsRel]; split
      · omega
      · rw [Nat.min_def]; split <;> omega
    have hb2 : jsRel fileLines.length (fileLines.length : Int) = fileLines.length := by
      rw [jsRel]; split
      · omega
      · rw [Nat.min_def]; split <;> omega
    simp only [read_file_lines, jsSlice, hb1, hb2]

/-- Witness for C5's amended theorem at a concrete out-of-range request:
line 5 of a 3-line file. -/
theorem explicit_range_bounds_witness :
    (∃ payload, read_file_lines 2 9 ["a", "b", "c"] = .ok payload) ∧
    (((5 : Int) < 1 ∨ (5 : Int) > (["a", "b", "c"] : List String).length) →
      show_around_line 5 1 ["a", "b", "c"] = .error ("Line number " ++ toString (5 : Int) ++
        " is out of range (file has " ++
          toString (["a", "b", "c"] : List String).length ++ " lines)")) ∧
    (1 ≤ (5 : Int) → (5 : Int) ≤ (["a", "b", "c"] : List String).length →
      ∃ payload, show_around_line 5 1 ["a", "b", "c"] = .ok payload) ∧
    (((["a", "b", "c"] : List String).length : Int) < 2 →
      read_file_lines 2 9 ["a", "b", "c"] = .ok []) ∧
    (1 ≤ (2 : Int) → (((["a", "b", "c"] : List String).length : Int)) ≤ 9 →
      read_file_lines 2 9 ["a", "b", "c"] =
        read_file_lines 2 ((["a", "b", "c"] : List String).length : Int) ["a", "b", "c"]) :=
  explicit_range_bounds 2 9 5 1 ["a", "b", "c"]

/-- Modelled from the spec: the claimed context-window rendering — the
inclusive 1-based range `[max(1, center - c), min(lineCount, center + c)]`,
each line numbered (left-padded to width 4) and the center line marked. -/
def specWindow (fileLines : List String) (center c : Nat) : List String :=
  (List.range' (max 1 (center - c))
      (min fileLines.length (center + c) + 1 - max 1 (center - c))).map
    (fun i => (if i = center then ">" else " ") ++ " " ++ padStart4 (toString i) ++
      ": " ++ fileLines.getD (i - 1) "")

lemma matchBlock_window (fileLines : List String) (m idx c : Nat)
    (h : idx < fileLines.length) :
    matchBlock fileLines m idx c =
      ("\n--- Match " ++ toString m ++ " at line " ++ toString (idx + 1) ++ " ---") ::
        specWindow fileLines (idx + 1) c := by
  rw [matchBlock, specWindow]
  have e1 : max 1 (idx + 1 - c) = (idx - c) + 1 := by
    rw [Nat.max_def]; split <;> omega
  have e2 : min fileLines.length (idx + 1 + c) = min (fileLines.length - 1) (idx + c) + 1 := by
    rw [Nat.min_def, Nat.min_def]; split <;> split <;> omega
  rw [e1, e2]
  have e3 : min (fileLines.length - 1) (idx + c) + 1 + 1 - (idx - c + 1) =
      min (fileLines.length - 1) (idx + c) + 1 - (idx - c) := by omega
  rw [e3]
  congr 1
  rw [show idx - c + 1 = 1 + (idx - c) from by omega, ← List.map_add_range']
  rw [List.map_map]
  apply List.map_congr_left
  intro i _
  have hcond : (i + 1 = idx + 1) = (i = idx) := by
    apply propext; omega
  simp only [Function.comp, Nat.add_comm 1 i, hcond, Nat.add_sub_cancel]

lemma searchRenderAux_eq (pat : List Char) (c : Nat) (fileLines : List String) :
    ∀ (rest : List String) (i li mc : Nat),
      searchRenderAux pat c fileLines rest i li mc =
        (((searchHitsAux pat rest i li).enumFrom mc).map
          (fun p => matchBlock fileLines (p.1 + 1) p.2 c)).flatten := by
  intro rest
  induction rest with
  | nil => intro i li mc; rfl
  | cons line rest ih =>
      intro i li mc
      cases hm : firstMatchFrom pat line.toList li with
      | some j =>
          rw [searchRenderAux, searchHitsAux, hm]
          simp only [List.enumFrom_cons, List.map_cons, List.flatten_cons, ih]
      | none =>
          rw [searchRenderAux, searchHitsAux, hm]
          simp only [ih]

lemma searchHitsAux_lt (pat : List Char) :
    ∀ (rest : List String) (i li : Nat) (x : Nat),
      x ∈ searchHitsAux pat rest i li → x < i + rest.length := by
  intro rest
  induction rest with
  | nil => intro i li x hx; exact absurd hx (by simp [searchHitsAux])
  | cons line rest ih =>
      intro i li x hx
      rw [searchHitsAux] at hx
      cases hm : firstMatchFrom pat line.toList li with
      | some j =>
          rw [hm] at hx
          rcases List.mem_cons.mp hx with rfl | hx'
          · simp
          · have := ih (i + 1) (j + pat.length) x hx'
            simp only [List.length_cons]
            omega
      | none =>
          rw [hm] at hx
          have := ih (i + 1) 0 x hx
          simp only [List.length_cons]
          omega

/-- C6: context windows.  (1) search_in_file's output is exactly the
concatenation, in match order, of one independent block per reported match
— blocks are never merged, so overlapping windows repeat lines.  (2) Each
match's block is a header followed by the inclusive 1-based window
`[max(1, i - c), min(N, i + c)]` around the match line `i = idx + 1`, each
line rendered with its 1-based number left-padded to width 4 and the `>`
marker exactly on the center line.  (3) show_around_line renders the same
window around its (in-range) target line. -/
theorem context_window_rendering (pat : List Char) (c : Nat) (fileLines : List String) :
    (search_in_file pat c fileLines =
      (((searchHits pat fileLines).enumFrom 0).map
        (fun p => matchBlock fileLines (p.1 + 1) p.2 c)).flatten) ∧
    (∀ idx ∈ searchHits pat fileLines, ∀ m : Nat,
      matchBlock fileLines m idx c =
        ("\n--- Match " ++ toString m ++ " at line " ++ toString (idx + 1) ++ " ---") ::
          specWindow fileLines (idx + 1) c) ∧
    (∀ t : Int, 1 ≤ t → t ≤ fileLines.length →
      show_around_line t c fileLines = .ok (specWindow fileLines t.toNat c)) := by
  refine ⟨searchRenderAux_eq pat c fileLines fileLines 0 0 0, ?_, ?_⟩
  · intro idx hidx m
    have hlt : idx < fileLines.length := by
      have := searchHitsAux_lt pat fileLines 0 0 idx hidx
      omega
    exact matchBlock_window fileLines m idx c hlt
  · intro t h1 h2
    rw [show_around_line, if_neg (by omega)]
    rfl

/-- Witness for C6 on a concrete file where the pattern matches lines 2 and
4 with radius 1 (the two windows share line 3). -/
theorem context_window_rendering_witness :
    ((search_in_file "b".toList 1 ["a", "b", "c", "b"] =
      (((searchHits "b".toList ["a", "b", "c", "b"]).enumFrom 0).map
        (fun p => matchBlock ["a", "b", "c", "b"] (p.1 + 1) p.2 1)).flatten) ∧
    (∀ idx ∈ searchHits "b".toList ["a", "b", "c", "b"], ∀ m : Nat,
      matchBlock ["a", "b", "c", "b"] m idx 1 =
        ("\n--- Match " ++ toString m ++ " at line " ++ toString (idx + 1) ++ " ---") ::
          specWindow ["a", "b", "c", "b"] (idx + 1) 1) ∧
    (∀ t : Int, 1 ≤ t → t ≤ (["a", "b", "c", "b"] : List String).length →
      show_around_line t 1 ["a", "b", "c", "b"] =
        .ok (specWindow ["a", "b", "c", "b"] t.toNat 1))) ∧
    searchHits "b".toList ["a", "b", "c", "b"] = [1, 3] :=
  ⟨context_window_rendering "b".toList 1 ["a", "b", "c", "b"], by decide⟩

lemma enum_numbered_getD (l : List String) (i : Nat) (h : i < l.length) :
    (l.enum.map (fun p => padStart4 (toString (p.1 + 1)) ++ ": " ++ p.2)).getD i "" =
      padStart4 (toString (i + 1)) ++ ": " ++ l.getD i "" := by
  have hlen : i <
      (l.enum.map (fun p => padStart4 (toString (p.1 + 1)) ++ ": " ++ p.2)).length := by
    rw [List.length_map, List.enum_eq_enumFrom, List.enumFrom_length]
    exact h
  rw [List.getD_eq_getElem?_getD, List.getElem?_eq_getElem hlen, Option.getD_some,
    List.getElem_map]
  simp only [List.enum_eq_enumFrom, List.getElem_enumFrom, Nat.zero_add,
    List.getD_eq_getElem?_getD, List.getElem?_eq_getElem h, Option.getD_some]

lemma getD_take_of_lt (l : List String) (n i : Nat) (h : i < n) :
    (l.take n).getD i "" = l.getD i "" := by
  simp [List.getD_eq_getElem?_getD, List.getElem?_take_of_lt h]

/-- C10: read_file's full-file mode shows exactly the first
`min 100 lineCount` lines, each prefixed with its 1-based line number
(padded to width 4); lines beyond the first 100 are never included; and the
payload carries the truncation notice (how many of how many lines) exactly
when the file has more than 100 lines. -/
theorem read_file_full_first100 (fileLines : List String) :
    (read_file_full fileLines).1.length = min 100 fileLines.length ∧
    (∀ i : Nat, i < (read_file_full fileLines).1.length →
      (read_file_full fileLines).1.getD i "" =
        padStart4 (toString (i + 1)) ++ ": " ++ fileLines.getD i "") ∧
    (fileLines.length ≤ 100 → (read_file_full fileLines).2 = "") ∧
    (100 < fileLines.length → (read_file_full fileLines).2 =
      "\n... (showing first 100 of " ++ toString fileLines.length ++ " lines)") := by
  refine ⟨?_, ?_, ?_, ?_⟩
  · by_cases h100 : fileLines.length > 100
    · simp only [read_file_full, if_pos h100, List.length_map, List.enum_eq_enumFrom,
        List.enumFrom_length, List.length_take]
    · simp only [read_file_full, if_neg h100, List.length_map, List.enum_eq_enumFrom,
        List.enumFrom_length]
      rw [Nat.min_def]
      split <;> omega
  · intro i hi
    by_cases h100 : fileLines.length > 100
    · have hi' : i < (fileLines.take 100).length := by
        simp only [read_file_full, if_pos h100, List.length_map, List.enum_eq_enumFrom,
          List.enumFrom_length] at hi
        exact hi
      have hi100 : i < 100 := by
        rw [List.length_take] at hi'
        omega
      have hcast : (read_file_full fileLines).1.getD i "" =
          ((fileLines.take 100).enum.map
            (fun p => padStart4 (toString (p.1 + 1)) ++ ": " ++ p.2)).getD i "" := by
        simp only [read_file_full, if_pos h100]
      rw [hcast, enum_numbered_getD (fileLines.take 100) i hi',
        getD_take_of_lt fileLines 100 i hi100]
    · have hi' : i < fileLines.length := by
        simp only [read_file_full, if_neg h100, List.length_map, List.enum_eq_enumFrom,
          List.enumFrom_length] at hi
        exact hi
      have hcast : (read_file_full fileLines).1.getD i "" =
          (fileLines.enum.map
            (fun p => padStart4 (toString (p.1 + 1)) ++ ": " ++ p.2)).getD i "" := by
        simp only [read_file_full, if_neg h100]
      rw [hcast, enum_numbered_getD fileLines i hi']
  · intro hle
    simp only [read_file_full, if_neg (by omega : ¬ fileLines.length > 100)]
  · intro hgt
    simp only [read_file_full, if_pos (by omega : fileLines.length > 100)]
    rfl

/-- Witness for C10 on a 101-line file: 100 numbered lines and the
truncation notice. -/
theorem read_file_full_first100_witness :
    ((read_file_full (List.replicate 101 "x")).1.length =
      min 100 (List.replicate 101 "x" : List String).length ∧
    (∀ i : Nat, i < (read_file_full (List.replicate 101 "x")).1.length →
      (read_file_full (List.replicate 101 "x")).1.getD i "" =
        padStart4 (toString (i + 1)) ++ ": " ++
          (List.replicate 101 "x" : List String).getD i "") ∧
    ((List.replicate 101 "x" : List String).length ≤ 100 →
      (read_file_full (List.replicate 101 "x")).2 = "") ∧
    (100 < (List.replicate 101 "x" : List String).length →
      (read_file_full (List.replicate 101 "x")).2 =
        "\n... (showing first 100 of " ++
          toString (List.replicate 101 "x" : List String).length ++ " lines)")) ∧
    (read_file_full (List.replicate 101 "x")).2 =
      "\n... (showing first 100 of 101 lines)" :=
  ⟨read_file_full_first100 (List.replicate 101 "x"), by decide⟩

/-!
## line_edit  (index.ts, `case 'line_edit'`)

For `action: 'delete'` the handler spawns `sed -i.bak '<r1>,<r2>d' <file>`:
sed streams the file line by line, numbering lines from 1, and the `d`
command deletes (emits nothing for) every line whose number lies in the
inclusive address range, passing every other line through unchanged.
-/

/-- sed's streaming pass for `r1,r2 d`: `n` is the number of the next input
line. -/
def delRange (r1 r2 : Nat) : Nat → List String → List String
  | _, [] => []
  | n, a :: ls => (if r1 ≤ n ∧ n ≤ r2 then [] else [a]) ++ delRange r1 r2 (n + 1) ls

/-- The new file content of a `line_edit` delete on the resolved range
`(r1, r2)` (1-based, inclusive). -/
def line_edit_delete (r1 r2 : Nat) (lines : List String) : List String :=
  delRange r1 r2 1 lines

lemma delRange_past (r1 r2 : Nat) :
    ∀ (ls : List String) (n : Nat), r2 < n → delRange r1 r2 n ls = ls := by
  intro ls
  induction ls with
  | nil => intro n _; rfl
  | cons a ls ih =>
      intro n hn
      rw [delRange, if_neg (by omega), ih (n + 1) (by omega)]
      rfl

lemma delRange_shift (r1 r2 : Nat) (hr2 : 1 ≤ r2) :
    ∀ (ls : List String) (n : Nat),
      delRange r1 r2 (n + 1) ls = delRange (r1 - 1) (r2 - 1) n ls := by
  intro ls
  induction ls with
  | nil => intro n; rfl
  | cons a ls ih =>
      intro n
      rw [delRange, delRange, ih (n + 1)]
      by_cases hc : r1 ≤ n + 1 ∧ n + 1 ≤ r2
      · rw [if_pos hc, if_pos (by omega : r1 - 1 ≤ n ∧ n ≤ r2 - 1)]
      · rw [if_neg hc, if_neg (by omega : ¬(r1 - 1 ≤ n ∧ n ≤ r2 - 1))]

lemma delRange_zero_one (r2 : Nat) :
    ∀ (ls : List String) (n : Nat), 1 ≤ n →
      delRange 0 r2 n ls = delRange 1 r2 n ls := by
  intro ls
  induction ls with
  | nil => intro n _; rfl
  | cons a ls ih =>
      intro n hn
      rw [delRange, delRange, ih (n + 1) (by omega)]
      by_cases hc : n ≤ r2
      · rw [if_pos (by omega : 0 ≤ n ∧ n ≤ r2), if_pos (by omega : 1 ≤ n ∧ n ≤ r2)]
      · rw [if_neg (by omega : ¬(0 ≤ n ∧ n ≤ r2)), if_neg (by omega : ¬(1 ≤ n ∧ n ≤ r2))]

lemma line_edit_delete_eq_take_drop :
    ∀ (lines : List String) (r1 r2 : Nat), 1 ≤ r1 → r1 ≤ r2 → r2 ≤ lines.length →
      line_edit_delete r1 r2 lines = lines.take (r1 - 1) ++ lines.drop r2 := by
  intro lines
  induction lines with
  | nil =>
      intro r1 r2 h1 h2 h3
      simp [line_edit_delete, delRange]
  | cons a ls ih =>
      intro r1 r2 h1 h2 h3
      by_cases hr1 : r1 = 1
      · subst hr1
        rw [line_edit_delete, delRange, if_pos (by omega), List.nil_append,
          delRange_shift 1 r2 (by omega) ls 1, Nat.sub_self,
          delRange_zero_one (r2 - 1) ls 1 (by omega)]
        by_cases hr2 : r2 = 1
        · subst hr2
          rw [show (1 : Nat) - 1 = 0 from rfl, delRange_past 1 0 ls 1 (by omega)]
          simp
        · have := ih 1 (r2 - 1) (by omega) (by omega)
            (by simp only [List.length_cons] at h3; omega)
          rw [line_edit_delete] at this
          rw [this]
          simp only [Nat.sub_self, List.take_zero, List.nil_append, List.take_nil]
          rw [show r2 = (r2 - 1) + 1 from by omega, List.drop_succ_cons,
            Nat.add_sub_cancel]
      · rw [line_edit_delete, delRange, if_neg (by omega),
          delRange_shift r1 r2 (by omega) ls 1]
        have := ih (r1 - 1) (r2 - 1) (by omega) (by omega)
          (by simp only [List.length_cons] at h3; omega)
        rw [line_edit_delete] at this
        rw [this]
        rw [show r1 - 1 = (r1 - 1 - 1) + 1 from by omega, List.take_succ_cons,
          show r2 = (r2 - 1) + 1 from by omega, List.drop_succ_cons]
        rfl

/-- C8: line_edit delete on a resolved in-bounds range `(r1, r2)`:
the result is exactly the lines before `r1` followed by the lines after
`r2` (so prior lines are preserved, later lines shift down, and no blank
placeholder is left); the line count drops by exactly `r2 - r1 + 1`; and
when a line `r2 + 1` exists, it becomes the new line `r1`. -/
theorem line_edit_delete_range (r1 r2 : Nat) (lines : List String)
    (h1 : 1 ≤ r1) (h2 : r1 ≤ r2) (h3 : r2 ≤ lines.length) :
    line_edit_delete r1 r2 lines = lines.take (r1 - 1) ++ lines.drop r2 ∧
    (line_edit_delete r1 r2 lines).length = lines.length - (r2 - r1 + 1) ∧
    (r2 < lines.length →
      (line_edit_delete r1 r2 lines).getD (r1 - 1) "" = lines.getD r2 "") := by
  have hchar := line_edit_delete_eq_take_drop lines r1 r2 h1 h2 h3
  have hlen_take : (lines.take (r1 - 1)).length = r1 - 1 := by
    rw [List.length_take, Nat.min_def]
    split <;> omega
  refine ⟨hchar, ?_, ?_⟩
  · rw [hchar, List.length_append, hlen_take, List.length_drop]
    omega
  · intro hr2
    rw [hchar]
    rw [List.getD_eq_getElem?_getD, List.getElem?_append_right (by omega), hlen_take,
      Nat.sub_self, List.getElem?_drop, Nat.add_zero]
    rw [List.getD_eq_getElem?_getD]

/-- Witness for C8: deleting lines 2-3 of a 4-line file leaves lines 1 and
4, the count drops by 2, and old line 4 becomes new line 2. -/
theorem line_edit_delete_range_witness :
    (line_edit_delete 2 3 ["a", "b", "c", "d"] =
      (["a", "b", "c", "d"] : List String).take (2 - 1) ++
        (["a", "b", "c", "d"] : List String).drop 3 ∧
    (line_edit_delete 2 3 ["a", "b", "c", "d"]).length =
      (["a", "b", "c", "d"] : List String).length - (3 - 2 + 1) ∧
    (3 < (["a", "b", "c", "d"] : List String).length →
      (line_edit_delete 2 3 ["a", "b", "c", "d"]).getD (2 - 1) "" =
        (["a", "b", "c", "d"] : List String).getD 3 "")) ∧
    line_edit_delete 2 3 ["a", "b", "c", "d"] = ["a", "d"] :=
  ⟨line_edit_delete_range 2 3 ["a", "b", "c", "d"] (by decide) (by decide) (by decide),
    by decide⟩
